import Mathlib

/-!
Verification of the camera-utilities module (`viz_utils/camera_utils.py`).

The module samples camera origins on a sphere from spherical angles
(`get_origin`), builds normalized look-at forward vectors
(`get_forward_vector`), and assembles 4x4 camera-to-world matrices from a
forward vector, an origin and an up hint (`create_cam2world_matrix`), with
`normalize_vecs` as the leaf utility.

Real tensors of shape (3,) are embedded as `Vec3` over `ℝ`; batched tensors
are embedded as `List`s, with torch's elementwise broadcasting semantics made
explicit; the shape calculus of the tensor operations is embedded separately
where a claim is about shapes rather than values.
-/

/-- A 3-component real vector: a torch tensor of shape (3,). -/
@[ext] structure Vec3 where
  x : ℝ
  y : ℝ
  z : ℝ

instance : Zero Vec3 := ⟨⟨0, 0, 0⟩⟩

instance : Neg Vec3 := ⟨fun a => ⟨-a.x, -a.y, -a.z⟩⟩

instance : Sub Vec3 := ⟨fun a b => ⟨a.x - b.x, a.y - b.y, a.z - b.z⟩⟩

namespace Vec3

/-- Euclidean dot product of two 3-vectors. -/
def dot (a b : Vec3) : ℝ := a.x * b.x + a.y * b.y + a.z * b.z

/-- `torch.cross(a, b, dim=-1)` restricted to a single pair of 3-vectors. -/
def cross (a b : Vec3) : Vec3 :=
  ⟨a.y * b.z - a.z * b.y, a.z * b.x - a.x * b.z, a.x * b.y - a.y * b.x⟩

/-- Squared Euclidean norm. -/
def normSq (v : Vec3) : ℝ := v.x ^ 2 + v.y ^ 2 + v.z ^ 2

/-- `torch.norm(v, dim=-1)` on one 3-vector: the Euclidean norm. -/
noncomputable def norm (v : Vec3) : ℝ := Real.sqrt (normSq v)

end Vec3

/-- `normalize_vecs(vectors)`: divide the vector by its Euclidean norm taken
along the last dimension, with no epsilon or tolerance added
(`vectors / torch.norm(vectors, dim=-1, keepdim=True)`). -/
noncomputable def normalize_vecs (v : Vec3) : Vec3 :=
  ⟨v.x / Vec3.norm v, v.y / Vec3.norm v, v.z / Vec3.norm v⟩

/-- `torch.clamp(x, lo, hi)` on one scalar. -/
noncomputable def clamp (x lo hi : ℝ) : ℝ := min (max x lo) hi

/-- `get_origin(horizontal_mean, vertical_mean, radius)` on scalar inputs:
clamp the vertical angle to [1e-5, pi - 1e-5], remap it through
phi = arccos(1 - 2 * (v / pi)), and emit the Cartesian point
(r sin(phi) cos(pi - theta), r cos(phi), r sin(phi) sin(pi - theta)). -/
noncomputable def get_origin (horizontal_mean vertical_mean radius : ℝ) : Vec3 :=
  let theta := horizontal_mean
  let v := clamp vertical_mean (1 / 100000) (Real.pi - 1 / 100000)
  let phi := Real.arccos (1 - 2 * (v / Real.pi))
  ⟨radius * Real.sin phi * Real.cos (Real.pi - theta),
   radius * Real.cos phi,
   radius * Real.sin phi * Real.sin (Real.pi - theta)⟩

/-- `get_forward_vector(lookat_position, horizontal_mean, vertical_mean, radius,
camera_origins=None)`: when no origin is supplied it is recomputed via
`get_origin`; the result is the normalized difference `target - origin`. -/
noncomputable def get_forward_vector (lookat_position : Vec3)
    (horizontal_mean vertical_mean radius : ℝ) (camera_origins : Option Vec3) : Vec3 :=
  let o := match camera_origins with
    | none => get_origin horizontal_mean vertical_mean radius
    | some c => c
  normalize_vecs (lookat_position - o)

/-- `right_vector = -normalize_vecs(torch.cross(up_vector, forward_vector, dim=-1))`
computed inside `create_cam2world_matrix` (the forward vector has already been
normalized at that point). -/
noncomputable def right_vector (up_vector forward_vector : Vec3) : Vec3 :=
  -(normalize_vecs (Vec3.cross up_vector (normalize_vecs forward_vector)))

/-- The reassigned `up_vector = normalize_vecs(torch.cross(forward_vector,
right_vector, dim=-1))` computed inside `create_cam2world_matrix`. -/
noncomputable def new_up_vector (up_vector forward_vector : Vec3) : Vec3 :=
  normalize_vecs (Vec3.cross (normalize_vecs forward_vector) (right_vector up_vector forward_vector))

/-- One batch element of `rotation_matrix`: `torch.eye(4)` with the upper-left
3x3 block replaced by `torch.stack((right_vector, up_vector, forward_vector),
axis=-1)`, i.e. the three basis vectors as columns. -/
noncomputable def rotation_matrix (r u f : Vec3) : Matrix (Fin 4) (Fin 4) ℝ :=
  Matrix.of
    ![![r.x, u.x, f.x, 0],
      ![r.y, u.y, f.y, 0],
      ![r.z, u.z, f.z, 0],
      ![0, 0, 0, 1]]

/-- One batch element of `translation_matrix`: `torch.eye(4)` with rows 0-2 of
column 3 replaced by the origin. -/
noncomputable def translation_matrix (origin : Vec3) : Matrix (Fin 4) (Fin 4) ℝ :=
  Matrix.of
    ![![1, 0, 0, origin.x],
      ![0, 1, 0, origin.y],
      ![0, 0, 1, origin.z],
      ![0, 0, 0, 1]]

/-- `create_cam2world_matrix(forward_vector, origin, up_vector)` on one batch
element: normalize the forward vector, derive the right and corrected up
vectors, and return `translation_matrix @ rotation_matrix`. -/
noncomputable def create_cam2world_matrix (forward_vector origin up_vector : Vec3) :
    Matrix (Fin 4) (Fin 4) ℝ :=
  translation_matrix origin *
    rotation_matrix (right_vector up_vector forward_vector)
      (new_up_vector up_vector forward_vector) (normalize_vecs forward_vector)

/-- Rows 0-2 of column j of a 4x4 matrix, as a 3-vector. -/
noncomputable def mcol (M : Matrix (Fin 4) (Fin 4) ℝ) (j : Fin 4) : Vec3 :=
  ⟨M 0 j, M 1 j, M 2 j⟩

/-- The upper-left 3x3 block of a 4x4 matrix. -/
noncomputable def rot_block (M : Matrix (Fin 4) (Fin 4) ℝ) : Matrix (Fin 3) (Fin 3) ℝ :=
  Matrix.of
    ![![M 0 0, M 0 1, M 0 2],
      ![M 1 0, M 1 1, M 1 2],
      ![M 2 0, M 2 1, M 2 2]]

/-- `get_forward_vector` with an unbatched lookat target against a batch of N
camera origins: `lookat_position - camera_origins` broadcasts the target over
the batch rows and `normalize_vecs` acts per row. -/
noncomputable def get_forward_vector_batched (lookat_position : Vec3)
    (camera_origins : List Vec3) : List Vec3 :=
  camera_origins.map fun o => normalize_vecs (lookat_position - o)

/-- `create_cam2world_matrix` on batched inputs of shape (N, 3): every tensor
operation in the function body (normalize, cross, stack, the eye(4) repeats and
the batched matrix product) acts independently per batch row, so the batched
call is the row-wise application of the single-element function. -/
noncomputable def create_cam2world_batched (forward_vectors origins : List Vec3)
    (up_vector : Vec3) : List (Matrix (Fin 4) (Fin 4) ℝ) :=
  List.zipWith (fun f o => create_cam2world_matrix f o up_vector) forward_vectors origins

/-- `get_origin` called with batched angle tensors of shape (N,): the source
allocates the fixed buffer `camera_origins = torch.zeros((3))` and executes the
in-place assignment `camera_origins[0:1] = radius * sin(phi) * cos(pi - theta)`
whose right-hand side has shape (N,).  Torch slice assignment requires the
right-hand side to broadcast to the indexed shape (1,), which holds only for
N = 1; any other batch size raises a RuntimeError.  On success the output is
still the single unbatched 3-vector built from the one angle pair. -/
noncomputable def get_origin_on_batch (hs vs : List ℝ) (r : ℝ) : Except String Vec3 :=
  match hs, vs with
  | [h], [v] => Except.ok (get_origin h v r)
  | _, _ => Except.error "RuntimeError: value tensor does not broadcast to indexing result of shape (1,)"

/-- `create_cam2world_matrix` applied to unbatched shape-(3,) forward and
origin tensors, as done by `LookAtPoseSampler.sample` on scalar inputs: then
`forward_vector.shape[0]` is 3 (the component count, not a batch size), so
`torch.eye(4).unsqueeze(0).repeat(3, 1, 1)` makes 3 identity matrices, and the
(3, 3) stacked basis block and the (3,) origin broadcast across that leading
dimension, writing the same rotation block and the same translation column
into each of the 3 matrices. -/
noncomputable def create_cam2world_unbatched (forward_vector origin up_vector : Vec3) :
    List (Matrix (Fin 4) (Fin 4) ℝ) :=
  List.replicate 3 (create_cam2world_matrix forward_vector origin up_vector)

/-- `LookAtPoseSampler.sample(horizontal_mean, vertical_mean, lookat_position,
radius, up_vector, device)` on scalar angle inputs: origin via `get_origin`,
forward vector via `get_forward_vector` with the precomputed origin, then
`create_cam2world_matrix` on the resulting unbatched 3-vectors (the final
`.to(device)` does not change the numerics). -/
noncomputable def sample_lookat (horizontal_mean vertical_mean : ℝ)
    (lookat_position : Vec3) (radius : ℝ) (up_vector : Vec3) :
    List (Matrix (Fin 4) (Fin 4) ℝ) :=
  let camera_origins := get_origin horizontal_mean vertical_mean radius
  let forward_vectors := get_forward_vector lookat_position horizontal_mean vertical_mean
    radius (some camera_origins)
  create_cam2world_unbatched forward_vectors camera_origins up_vector

/-- Shape of `torch.eye(4)`. -/
def eye4_shape : List Nat := [4, 4]

/-- Shape after `.unsqueeze(0)`. -/
def unsqueeze0 (s : List Nat) : List Nat := 1 :: s

/-- Shape after `.repeat(b, 1, 1)` on a rank-3 tensor: torch multiplies each
dimension size by the corresponding repeat count. -/
def repeat_batch (b : Nat) (s : List Nat) : Option (List Nat) :=
  match s with
  | [b0, r, c] => some [b * b0, r, c]
  | _ => none

/-- Shape of a batched `@` matrix product of two rank-3 tensors: inner
dimensions must agree and batch dimensions must broadcast. -/
def batched_matmul_shape (s t : List Nat) : Option (List Nat) :=
  match s, t with
  | [b1, m, k], [b2, k2, n] =>
      if k = k2 ∧ (b1 = b2 ∨ b1 = 1 ∨ b2 = 1) then some [max b1 b2, m, n] else none
  | _, _ => none

/-- Shape of the `cam2world` result in `create_cam2world_matrix` for a batch
size b = `forward_vector.shape[0]`: both `translation_matrix` and
`rotation_matrix` are `torch.eye(4).unsqueeze(0).repeat(b, 1, 1)` (the in-place
block assignments do not change shapes), and the result is their batched
product (the trailing `[:, :, :]` slice is the identity on shapes). -/
def cam2world_shape (b : Nat) : Option (List Nat) :=
  match repeat_batch b (unsqueeze0 eye4_shape), repeat_batch b (unsqueeze0 eye4_shape) with
  | some ts, some rs => batched_matmul_shape ts rs
  | _, _ => none

/-! ## Component lemmas for `Vec3` -/

namespace Vec3

@[simp] lemma zero_x : (0 : Vec3).x = 0 := rfl

@[simp] lemma zero_y : (0 : Vec3).y = 0 := rfl

@[simp] lemma zero_z : (0 : Vec3).z = 0 := rfl

@[simp] lemma neg_x (a : Vec3) : (-a).x = -a.x := rfl

@[simp] lemma neg_y (a : Vec3) : (-a).y = -a.y := rfl

@[simp] lemma neg_z (a : Vec3) : (-a).z = -a.z := rfl

@[simp] lemma sub_x (a b : Vec3) : (a - b).x = a.x - b.x := rfl

@[simp] lemma sub_y (a b : Vec3) : (a - b).y = a.y - b.y := rfl

@[simp] lemma sub_z (a b : Vec3) : (a - b).z = a.z - b.z := rfl

lemma normSq_nonneg (v : Vec3) : 0 ≤ normSq v := by
  simp only [normSq]
  positivity

lemma normSq_eq_zero_iff (v : Vec3) : normSq v = 0 ↔ v = 0 := by
  constructor
  · intro h
    simp only [normSq] at h
    have hx : v.x ^ 2 = 0 :=
      le_antisymm (by nlinarith [sq_nonneg v.y, sq_nonneg v.z]) (sq_nonneg v.x)
    have hy : v.y ^ 2 = 0 :=
      le_antisymm (by nlinarith [sq_nonneg v.x, sq_nonneg v.z]) (sq_nonneg v.y)
    have hz : v.z ^ 2 = 0 :=
      le_antisymm (by nlinarith [sq_nonneg v.x, sq_nonneg v.y]) (sq_nonneg v.z)
    ext
    · exact pow_eq_zero_iff (two_ne_zero) |>.mp hx
    · exact pow_eq_zero_iff (two_ne_zero) |>.mp hy
    · exact pow_eq_zero_iff (two_ne_zero) |>.mp hz
  · rintro rfl
    simp [normSq]

lemma norm_pos (v : Vec3) (h : v ≠ 0) : 0 < norm v := by
  rw [norm, Real.sqrt_pos]
  rcases (normSq_nonneg v).lt_or_eq with h1 | h1
  · exact h1
  · exact absurd ((normSq_eq_zero_iff v).mp h1.symm) h

lemma norm_ne_zero (v : Vec3) (h : v ≠ 0) : norm v ≠ 0 := (norm_pos v h).ne'

lemma sq_norm (v : Vec3) : norm v ^ 2 = normSq v := Real.sq_sqrt (normSq_nonneg v)

lemma dot_comm (a b : Vec3) : dot a b = dot b a := by
  simp only [dot]
  ring

lemma dot_cross_left (a b : Vec3) : dot (cross a b) a = 0 := by
  simp only [dot, cross]
  ring

lemma dot_cross_right (a b : Vec3) : dot (cross a b) b = 0 := by
  simp only [dot, cross]
  ring

lemma normSq_neg (a : Vec3) : normSq (-a) = normSq a := by
  simp only [normSq, neg_x, neg_y, neg_z]
  ring

lemma dot_neg_left (a b : Vec3) : dot (-a) b = -dot a b := by
  simp only [dot, neg_x, neg_y, neg_z]
  ring

lemma lagrange (a b : Vec3) : normSq (cross a b) = normSq a * normSq b - dot a b ^ 2 := by
  simp only [normSq, cross, dot]
  ring

end Vec3

/-! ## Lemmas about `normalize_vecs` -/

lemma normSq_normalize (v : Vec3) (h : v ≠ 0) : Vec3.normSq (normalize_vecs v) = 1 := by
  have hn : Vec3.norm v ≠ 0 := Vec3.norm_ne_zero v h
  have h2 : Vec3.norm v ^ 2 = v.x ^ 2 + v.y ^ 2 + v.z ^ 2 := Vec3.sq_norm v
  simp only [normalize_vecs, Vec3.normSq]
  field_simp
  linarith [h2]

lemma norm_eq_one_of_normSq (v : Vec3) (h : Vec3.normSq v = 1) : Vec3.norm v = 1 := by
  rw [Vec3.norm, h, Real.sqrt_one]

lemma norm_normalize (v : Vec3) (h : v ≠ 0) : Vec3.norm (normalize_vecs v) = 1 :=
  norm_eq_one_of_normSq _ (normSq_normalize v h)

lemma normalize_of_norm_one (v : Vec3) (h : Vec3.norm v = 1) : normalize_vecs v = v := by
  ext <;> simp [normalize_vecs, h]

lemma dot_normalize_right (a b : Vec3) :
    Vec3.dot a (normalize_vecs b) = Vec3.dot a b / Vec3.norm b := by
  simp only [Vec3.dot, normalize_vecs]
  ring

lemma normSq_cross_normalize (u f : Vec3) (hn : Vec3.norm f ≠ 0) :
    Vec3.normSq (Vec3.cross u (normalize_vecs f)) * Vec3.norm f ^ 2 =
      Vec3.normSq (Vec3.cross u f) := by
  simp only [Vec3.normSq, Vec3.cross, normalize_vecs]
  field_simp

lemma cross_normalize_ne_zero (u f : Vec3) (hf : f ≠ 0) (hc : Vec3.cross u f ≠ 0) :
    Vec3.cross u (normalize_vecs f) ≠ 0 := by
  intro h0
  have hn : Vec3.norm f ≠ 0 := Vec3.norm_ne_zero f hf
  have h1 := normSq_cross_normalize u f hn
  rw [h0] at h1
  rw [(Vec3.normSq_eq_zero_iff (0 : Vec3)).mpr rfl, zero_mul] at h1
  exact hc ((Vec3.normSq_eq_zero_iff _).mp h1.symm)

/-! ## The orthonormal basis built by `create_cam2world_matrix` -/

lemma basis_facts (u f : Vec3) (hf : f ≠ 0) (hc : Vec3.cross u f ≠ 0) :
    Vec3.normSq (right_vector u f) = 1 ∧
    Vec3.normSq (new_up_vector u f) = 1 ∧
    Vec3.normSq (normalize_vecs f) = 1 ∧
    Vec3.dot (right_vector u f) (new_up_vector u f) = 0 ∧
    Vec3.dot (right_vector u f) (normalize_vecs f) = 0 ∧
    Vec3.dot (new_up_vector u f) (normalize_vecs f) = 0 ∧
    new_up_vector u f = Vec3.cross (normalize_vecs f) (right_vector u f) := by
  have h1 : Vec3.normSq (normalize_vecs f) = 1 := normSq_normalize f hf
  have hcn : Vec3.cross u (normalize_vecs f) ≠ 0 := cross_normalize_ne_zero u f hf hc
  have hr1 : Vec3.normSq (right_vector u f) = 1 := by
    unfold right_vector
    rw [Vec3.normSq_neg, normSq_normalize _ hcn]
  have hfc : Vec3.dot (normalize_vecs f) (Vec3.cross u (normalize_vecs f)) = 0 := by
    rw [Vec3.dot_comm]
    exact Vec3.dot_cross_right _ _
  have hrf : Vec3.dot (right_vector u f) (normalize_vecs f) = 0 := by
    unfold right_vector
    rw [Vec3.dot_neg_left, Vec3.dot_comm, dot_normalize_right, hfc, zero_div, neg_zero]
  have hfr : Vec3.dot (normalize_vecs f) (right_vector u f) = 0 := by
    rw [Vec3.dot_comm]
    exact hrf
  have hwsq : Vec3.normSq (Vec3.cross (normalize_vecs f) (right_vector u f)) = 1 := by
    rw [Vec3.lagrange, h1, hr1, hfr]
    norm_num
  have hupw : new_up_vector u f = Vec3.cross (normalize_vecs f) (right_vector u f) := by
    unfold new_up_vector
    exact normalize_of_norm_one _ (norm_eq_one_of_normSq _ hwsq)
  have hu1 : Vec3.normSq (new_up_vector u f) = 1 := by
    rw [hupw]
    exact hwsq
  have hru : Vec3.dot (right_vector u f) (new_up_vector u f) = 0 := by
    rw [hupw, Vec3.dot_comm]
    exact Vec3.dot_cross_right _ _
  have huf : Vec3.dot (new_up_vector u f) (normalize_vecs f) = 0 := by
    rw [hupw]
    exact Vec3.dot_cross_left _ _
  exact ⟨hr1, hu1, h1, hru, hrf, huf, hupw⟩

/-- All sixteen entries of the matrix returned by `create_cam2world_matrix`. -/
lemma cam2world_entries (forward_vector origin up_vector : Vec3) :
    create_cam2world_matrix forward_vector origin up_vector =
      Matrix.of
        ![![(right_vector up_vector forward_vector).x,
            (new_up_vector up_vector forward_vector).x,
            (normalize_vecs forward_vector).x, origin.x],
          ![(right_vector up_vector forward_vector).y,
            (new_up_vector up_vector forward_vector).y,
            (normalize_vecs forward_vector).y, origin.y],
          ![(right_vector up_vector forward_vector).z,
            (new_up_vector up_vector forward_vector).z,
            (normalize_vecs forward_vector).z, origin.z],
          ![0, 0, 0, 1]] := by
  unfold create_cam2world_matrix translation_matrix rotation_matrix
  ext i j
  fin_cases i <;> fin_cases j <;>
    simp [Matrix.mul_apply, Fin.sum_univ_four]

/-! ## Lemmas from the origin sampler -/

lemma normSq_get_origin (θ v r : ℝ) : Vec3.normSq (get_origin θ v r) = r ^ 2 := by
  simp only [get_origin, Vec3.normSq]
  have h1 : Real.sin (Real.pi - θ) ^ 2 + Real.cos (Real.pi - θ) ^ 2 = 1 :=
    Real.sin_sq_add_cos_sq _
  have h2 :
      Real.sin (Real.arccos
          (1 - 2 * (clamp v (1 / 100000) (Real.pi - 1 / 100000) / Real.pi))) ^ 2 +
        Real.cos (Real.arccos
          (1 - 2 * (clamp v (1 / 100000) (Real.pi - 1 / 100000) / Real.pi))) ^ 2 = 1 :=
    Real.sin_sq_add_cos_sq _
  linear_combination
    (r ^ 2 * Real.sin (Real.arccos
        (1 - 2 * (clamp v (1 / 100000) (Real.pi - 1 / 100000) / Real.pi))) ^ 2) * h1 +
      r ^ 2 * h2

/-! ## Claims -/

/-- C1: for every horizontal angle θ, vertical angle v in (1e-5, π - 1e-5) and
radius r > 0, the point returned by `get_origin` has Euclidean norm exactly r:
it lies on the sphere of radius r centered at the world origin. -/
theorem get_origin_norm_eq_radius (θ v r : ℝ)
    (hv : 1 / 100000 < v ∧ v < Real.pi - 1 / 100000) (hr : 0 < r) :
    Vec3.norm (get_origin θ v r) = r := by
  rw [Vec3.norm, normSq_get_origin]
  exact Real.sqrt_sq hr.le

/-- Witness for C1 at θ = 0, v = 1, r = 1. -/
theorem get_origin_norm_eq_radius_witness :
    (1 / 100000 < (1 : ℝ) ∧ (1 : ℝ) < Real.pi - 1 / 100000) ∧ (0 : ℝ) < 1 ∧
      Vec3.norm (get_origin 0 1 1) = 1 := by
  have hπ : (3 : ℝ) < Real.pi := Real.pi_gt_three
  have hv : 1 / 100000 < (1 : ℝ) ∧ (1 : ℝ) < Real.pi - 1 / 100000 := by
    constructor <;> nlinarith
  exact ⟨hv, one_pos, get_origin_norm_eq_radius 0 1 1 hv one_pos⟩

/-- C2: `get_origin` first clamps v to [1e-5, π - 1e-5], then returns the
Cartesian point (r sin φ cos(π-θ), r cos φ, r sin φ sin(π-θ)) with
φ = arccos(1 - 2 (v/π)); in particular v = 0 and v = π produce exactly the
same output as v = 1e-5 and v = π - 1e-5 respectively. -/
theorem get_origin_clamp_spec (θ v r : ℝ) :
    (get_origin θ v r =
      ⟨r * Real.sin (Real.arccos
          (1 - 2 * (clamp v (1 / 100000) (Real.pi - 1 / 100000) / Real.pi))) *
          Real.cos (Real.pi - θ),
       r * Real.cos (Real.arccos
          (1 - 2 * (clamp v (1 / 100000) (Real.pi - 1 / 100000) / Real.pi))),
       r * Real.sin (Real.arccos
          (1 - 2 * (clamp v (1 / 100000) (Real.pi - 1 / 100000) / Real.pi))) *
          Real.sin (Real.pi - θ)⟩) ∧
    get_origin θ 0 r = get_origin θ (1 / 100000) r ∧
    get_origin θ Real.pi r = get_origin θ (Real.pi - 1 / 100000) r := by
  have hπ : (3 : ℝ) < Real.pi := Real.pi_gt_three
  refine ⟨rfl, ?_, ?_⟩
  · have e1 : clamp (0 : ℝ) (1 / 100000) (Real.pi - 1 / 100000) = 1 / 100000 := by
      rw [clamp, max_eq_right (by norm_num), min_eq_left (by nlinarith)]
    have e2 : clamp ((1 : ℝ) / 100000) (1 / 100000) (Real.pi - 1 / 100000) =
        1 / 100000 := by
      rw [clamp, max_self, min_eq_left (by nlinarith)]
    simp only [get_origin, e1, e2]
  · have e3 : clamp Real.pi (1 / 100000) (Real.pi - 1 / 100000) =
        Real.pi - 1 / 100000 := by
      rw [clamp, max_eq_left (by nlinarith), min_eq_right (by nlinarith)]
    have e4 : clamp (Real.pi - 1 / 100000) (1 / 100000) (Real.pi - 1 / 100000) =
        Real.pi - 1 / 100000 := by
      rw [clamp, max_eq_left (by nlinarith), min_self]
    simp only [get_origin, e3, e4]

/-- C3: whenever the forward vector is nonzero and not parallel to the up hint
(equivalently their cross product is nonzero), the three columns of the 3x3
rotation block of the matrix returned by `create_cam2world_matrix` (right, up,
forward) have unit norm and pairwise zero dot products. -/
theorem cam2world_rotation_orthonormal (forward_vector origin up_vector : Vec3)
    (hf : forward_vector ≠ 0) (hc : Vec3.cross up_vector forward_vector ≠ 0) :
    (Vec3.norm (mcol (create_cam2world_matrix forward_vector origin up_vector) 0) = 1 ∧
     Vec3.norm (mcol (create_cam2world_matrix forward_vector origin up_vector) 1) = 1 ∧
     Vec3.norm (mcol (create_cam2world_matrix forward_vector origin up_vector) 2) = 1) ∧
    Vec3.dot (mcol (create_cam2world_matrix forward_vector origin up_vector) 0)
      (mcol (create_cam2world_matrix forward_vector origin up_vector) 1) = 0 ∧
    Vec3.dot (mcol (create_cam2world_matrix forward_vector origin up_vector) 0)
      (mcol (create_cam2world_matrix forward_vector origin up_vector) 2) = 0 ∧
    Vec3.dot (mcol (create_cam2world_matrix forward_vector origin up_vector) 1)
      (mcol (create_cam2world_matrix forward_vector origin up_vector) 2) = 0 := by
  obtain ⟨hr1, hu1, h1, hru, hrf, huf, _⟩ := basis_facts up_vector forward_vector hf hc
  have e0 : mcol (create_cam2world_matrix forward_vector origin up_vector) 0 =
      right_vector up_vector forward_vector := by
    rw [cam2world_entries]
    ext <;> simp [mcol]
  have e1 : mcol (create_cam2world_matrix forward_vector origin up_vector) 1 =
      new_up_vector up_vector forward_vector := by
    rw [cam2world_entries]
    ext <;> simp [mcol]
  have e2 : mcol (create_cam2world_matrix forward_vector origin up_vector) 2 =
      normalize_vecs forward_vector := by
    rw [cam2world_entries]
    ext <;> simp [mcol]
  rw [e0, e1, e2]
  exact ⟨⟨norm_eq_one_of_normSq _ hr1, norm_eq_one_of_normSq _ hu1,
    norm_eq_one_of_normSq _ h1⟩, hru, hrf, huf⟩

/-- Witness for C3 with forward = (0,0,1), origin = (2,5,7), up hint = (0,-1,0). -/
theorem cam2world_rotation_orthonormal_witness :
    ((⟨0, 0, 1⟩ : Vec3) ≠ 0 ∧ Vec3.cross ⟨0, -1, 0⟩ ⟨0, 0, 1⟩ ≠ 0) ∧
    ((Vec3.norm (mcol (create_cam2world_matrix ⟨0, 0, 1⟩ ⟨2, 5, 7⟩ ⟨0, -1, 0⟩) 0) = 1 ∧
      Vec3.norm (mcol (create_cam2world_matrix ⟨0, 0, 1⟩ ⟨2, 5, 7⟩ ⟨0, -1, 0⟩) 1) = 1 ∧
      Vec3.norm (mcol (create_cam2world_matrix ⟨0, 0, 1⟩ ⟨2, 5, 7⟩ ⟨0, -1, 0⟩) 2) = 1) ∧
     Vec3.dot (mcol (create_cam2world_matrix ⟨0, 0, 1⟩ ⟨2, 5, 7⟩ ⟨0, -1, 0⟩) 0)
       (mcol (create_cam2world_matrix ⟨0, 0, 1⟩ ⟨2, 5, 7⟩ ⟨0, -1, 0⟩) 1) = 0 ∧
     Vec3.dot (mcol (create_cam2world_matrix ⟨0, 0, 1⟩ ⟨2, 5, 7⟩ ⟨0, -1, 0⟩) 0)
       (mcol (create_cam2world_matrix ⟨0, 0, 1⟩ ⟨2, 5, 7⟩ ⟨0, -1, 0⟩) 2) = 0 ∧
     Vec3.dot (mcol (create_cam2world_matrix ⟨0, 0, 1⟩ ⟨2, 5, 7⟩ ⟨0, -1, 0⟩) 1)
       (mcol (create_cam2world_matrix ⟨0, 0, 1⟩ ⟨2, 5, 7⟩ ⟨0, -1, 0⟩) 2) = 0) := by
  have hf : (⟨0, 0, 1⟩ : Vec3) ≠ 0 := by
    intro h
    have := congrArg Vec3.z h
    norm_num at this
  have hc : Vec3.cross ⟨0, -1, 0⟩ ⟨0, 0, 1⟩ ≠ 0 := by
    intro h
    have := congrArg Vec3.x h
    simp [Vec3.cross] at this
  exact ⟨⟨hf, hc⟩, cam2world_rotation_orthonormal ⟨0, 0, 1⟩ ⟨2, 5, 7⟩ ⟨0, -1, 0⟩ hf hc⟩

/-- C4: under the same nondegeneracy conditions, the determinant of the 3x3
rotation block of the matrix returned by `create_cam2world_matrix` is +1: the
basis built via `right = -normalize(cross(up_hint, forward))`,
`up = normalize(cross(forward, right))` is a proper right-handed rotation. -/
theorem cam2world_rotation_det_one (forward_vector origin up_vector : Vec3)
    (hf : forward_vector ≠ 0) (hc : Vec3.cross up_vector forward_vector ≠ 0) :
    (rot_block (create_cam2world_matrix forward_vector origin up_vector)).det = 1 := by
  obtain ⟨hr1, hu1, h1, hru, hrf, huf, hupw⟩ := basis_facts up_vector forward_vector hf hc
  rw [cam2world_entries]
  rw [show rot_block (Matrix.of
        ![![(right_vector up_vector forward_vector).x,
            (new_up_vector up_vector forward_vector).x,
            (normalize_vecs forward_vector).x, origin.x],
          ![(right_vector up_vector forward_vector).y,
            (new_up_vector up_vector forward_vector).y,
            (normalize_vecs forward_vector).y, origin.y],
          ![(right_vector up_vector forward_vector).z,
            (new_up_vector up_vector forward_vector).z,
            (normalize_vecs forward_vector).z, origin.z],
          ![0, 0, 0, 1]]) =
      Matrix.of
        ![![(right_vector up_vector forward_vector).x,
            (new_up_vector up_vector forward_vector).x,
            (normalize_vecs forward_vector).x],
          ![(right_vector up_vector forward_vector).y,
            (new_up_vector up_vector forward_vector).y,
            (normalize_vecs forward_vector).y],
          ![(right_vector up_vector forward_vector).z,
            (new_up_vector up_vector forward_vector).z,
            (normalize_vecs forward_vector).z]] from by
    ext i j
    fin_cases i <;> fin_cases j <;> simp [rot_block]]
  rw [Matrix.det_fin_three]
  simp only [Matrix.of_apply, Matrix.cons_val', Matrix.cons_val_zero, Matrix.cons_val_one,
    Matrix.head_cons, Matrix.head_fin_const, Matrix.cons_val_fin_one, Matrix.empty_val',
    Matrix.cons_val_two, Matrix.tail_cons]
  rw [hupw]
  simp only [Vec3.cross]
  simp only [Vec3.normSq] at hr1 h1
  simp only [Vec3.dot] at hrf
  linear_combination
    ((normalize_vecs forward_vector).x ^ 2 + (normalize_vecs forward_vector).y ^ 2 +
        (normalize_vecs forward_vector).z ^ 2) * hr1 + h1 -
      ((right_vector up_vector forward_vector).x * (normalize_vecs forward_vector).x +
        (right_vector up_vector forward_vector).y * (normalize_vecs forward_vector).y +
        (right_vector up_vector forward_vector).z * (normalize_vecs forward_vector).z) * hrf

/-- Witness for C4 with forward = (0,0,1), origin = (0,0,0), up hint = (0,-1,0). -/
theorem cam2world_rotation_det_one_witness :
    ((⟨0, 0, 1⟩ : Vec3) ≠ 0 ∧ Vec3.cross ⟨0, -1, 0⟩ ⟨0, 0, 1⟩ ≠ 0) ∧
      (rot_block (create_cam2world_matrix ⟨0, 0, 1⟩ ⟨0, 0, 0⟩ ⟨0, -1, 0⟩)).det = 1 := by
  have hf : (⟨0, 0, 1⟩ : Vec3) ≠ 0 := by
    intro h
    have := congrArg Vec3.z h
    norm_num at this
  have hc : Vec3.cross ⟨0, -1, 0⟩ ⟨0, 0, 1⟩ ≠ 0 := by
    intro h
    have := congrArg Vec3.x h
    simp [Vec3.cross] at this
  exact ⟨⟨hf, hc⟩, cam2world_rotation_det_one ⟨0, 0, 1⟩ ⟨0, 0, 0⟩ ⟨0, -1, 0⟩ hf hc⟩

/-- C5: for every input, the matrix returned by `create_cam2world_matrix`
applied to the homogeneous camera-space origin (0,0,0,1) yields exactly the
supplied world-space origin: its translation column (rows 0-2 of column 3)
equals the origin argument and its bottom row is (0,0,0,1). -/
theorem cam2world_translation_roundtrip (forward_vector origin up_vector : Vec3) :
    (create_cam2world_matrix forward_vector origin up_vector).mulVec ![0, 0, 0, 1] =
      ![origin.x, origin.y, origin.z, 1] ∧
    create_cam2world_matrix forward_vector origin up_vector 0 3 = origin.x ∧
    create_cam2world_matrix forward_vector origin up_vector 1 3 = origin.y ∧
    create_cam2world_matrix forward_vector origin up_vector 2 3 = origin.z ∧
    create_cam2world_matrix forward_vector origin up_vector 3 0 = 0 ∧
    create_cam2world_matrix forward_vector origin up_vector 3 1 = 0 ∧
    create_cam2world_matrix forward_vector origin up_vector 3 2 = 0 ∧
    create_cam2world_matrix forward_vector origin up_vector 3 3 = 1 := by
  rw [cam2world_entries]
  refine ⟨?_, by simp, by simp, by simp, by simp, by simp, by simp, by simp⟩
  funext i
  fin_cases i <;>
    simp [Matrix.mulVec, Matrix.dotProduct, Fin.sum_univ_four]

/-- C7: the trailing shape of the batch of matrices returned by
`create_cam2world_matrix` is always (4,4), for every batch size, so the
function's final assertion `cam2world.shape[1:] == (4, 4)` always passes. -/
theorem cam2world_trailing_shape (b : Nat) :
    cam2world_shape b = some [b, 4, 4] ∧ List.drop 1 [b, 4, 4] = [4, 4] := by
  constructor
  · simp [cam2world_shape, repeat_batch, unsqueeze0, eye4_shape, batched_matmul_shape]
  · rfl

/-- C6 counterexample: `get_origin` called with angle batches of size 2 raises
a shape error instead of returning a batch of 2 origins. -/
theorem get_origin_batch_two_fails :
    get_origin_on_batch [0, 0] [1, 1] 1 =
      Except.error
        "RuntimeError: value tensor does not broadcast to indexing result of shape (1,)" :=
  rfl

/-- C6 amended: `get_forward_vector` and `create_cam2world_matrix` broadcast a
single lookat target against a batch of N origins, producing outputs of batch
size N whose row i is computed from origin i; but `get_origin` accepts only
scalar or singleton-batch angles (returning a single unbatched 3-vector) and
fails with a shape error for batched angles of size N > 1. -/
theorem broadcast_batched_pipeline (lookat_position up_vector : Vec3)
    (origins : List Vec3) (h v r : ℝ) :
    get_origin_on_batch [h] [v] r = Except.ok (get_origin h v r) ∧
    (get_forward_vector_batched lookat_position origins).length = origins.length ∧
    create_cam2world_batched (get_forward_vector_batched lookat_position origins)
        origins up_vector =
      origins.map (fun o =>
        create_cam2world_matrix (normalize_vecs (lookat_position - o)) o up_vector) ∧
    (create_cam2world_batched (get_forward_vector_batched lookat_position origins)
        origins up_vector).length = origins.length := by
  have hmap : create_cam2world_batched (get_forward_vector_batched lookat_position origins)
      origins up_vector =
      origins.map (fun o =>
        create_cam2world_matrix (normalize_vecs (lookat_position - o)) o up_vector) := by
    induction origins with
    | nil => rfl
    | cons o os ih =>
        simp only [get_forward_vector_batched, create_cam2world_batched, List.map_cons,
          List.zipWith_cons_cons] at ih ⊢
        rw [ih]
  refine ⟨rfl, by simp [get_forward_vector_batched], hmap, ?_⟩
  rw [hmap]
  simp

/-- C10: `LookAtPoseSampler.sample` on scalar angles and a single 3-vector
target returns a batch of shape (3, 4, 4) — the leading 3 coming from the
vector component count, not from a requested pose count — and all three 4x4
matrices in the batch are identical. -/
theorem sample_scalar_batch_three (θ v r : ℝ) (lookat_position up_vector : Vec3) :
    (sample_lookat θ v lookat_position r up_vector).length = 3 ∧
    ∀ M ∈ sample_lookat θ v lookat_position r up_vector,
      M = create_cam2world_matrix
            (get_forward_vector lookat_position θ v r (some (get_origin θ v r)))
            (get_origin θ v r) up_vector := by
  constructor
  · rfl
  · intro M hM
    simp only [sample_lookat, create_cam2world_unbatched] at hM
    exact List.eq_of_mem_replicate hM

/-- C9: calling `get_forward_vector` without a precomputed origin equals calling
it with `camera_origins = get_origin(θ, v, r)`; in both cases the result is
`normalize_vecs(target - origin)`; and when an origin is supplied the angle and
radius arguments have no effect on the output. -/
theorem get_forward_vector_origin_reuse (lookat_position : Vec3) (θ v r : ℝ) :
    (get_forward_vector lookat_position θ v r none =
      get_forward_vector lookat_position θ v r (some (get_origin θ v r))) ∧
    (∀ o : Vec3, get_forward_vector lookat_position θ v r (some o) =
      normalize_vecs (lookat_position - o)) ∧
    (∀ (θ2 v2 r2 : ℝ) (o : Vec3),
      get_forward_vector lookat_position θ v r (some o) =
        get_forward_vector lookat_position θ2 v2 r2 (some o)) :=
  ⟨rfl, fun _ => rfl, fun _ _ _ _ => rfl⟩
